import Mathlib

/-!
Verification of the ssal task runner (src/parser.ts, src/executor.ts)
against its specification.  The TypeScript source is modelled shallowly:
strings are handled through their lists of characters, JavaScript
`String.replace` with a global literal regular expression is `replaceAll`
below, `String.replace` with a plain string pattern is `replaceFirst`,
and the effectful operations (process spawn, file deletion, console
output, environment lookup) are explicit world parameters.  Replacement
values are inserted literally; the JavaScript dollar escape sequences
inside replacement strings are not modelled, so every theorem that
inserts a quantified replacement value assumes the value contains no
dollar character.
-/

namespace SSAL

/-- Characters of the JavaScript whitespace class (its ASCII part),
used both by `trim` and by the regular expression class `\s`. -/
def isWs (c : Char) : Bool :=
  c == ' ' || c == '\t' || c == '\n' || c == '\r' || c == '\x0B' || c == '\x0C'

/-- Characters of the JavaScript word class `\w`. -/
def isWordChar (c : Char) : Bool :=
  c.isAlpha || c.isDigit || c == '_'

/-- JavaScript String.prototype.trim on a list of characters. -/
def trimList (s : List Char) : List Char :=
  ((s.dropWhile isWs).reverse.dropWhile isWs).reverse

/-- Scanner core of JavaScript `String.replace` with a global literal
pattern: scan left to right; at a position where the pattern starts,
emit the replacement and skip the matched characters (`skip` counts the
characters of the current match still to be dropped); otherwise emit the
character.  Matches are non-overlapping and leftmost, as in JavaScript,
and the emitted replacement is not rescanned. -/
def replaceAllAux (pat rep : List Char) : List Char → Nat → List Char
  | [], _ => []
  | _ :: rest, skip + 1 => replaceAllAux pat rep rest skip
  | c :: rest, 0 =>
    if pat.isPrefixOf (c :: rest) then
      rep ++ replaceAllAux pat rep rest (pat.length - 1)
    else
      c :: replaceAllAux pat rep rest 0

/-- JavaScript `s.replace(new RegExp(escape(pat), "g"), rep)` for a
nonempty literal pattern, with the replacement inserted literally. -/
def replaceAll (s pat rep : List Char) : List Char :=
  replaceAllAux pat rep s 0

/-- JavaScript `s.replace(pat, rep)` with a plain string pattern: only
the first occurrence is replaced. -/
def replaceFirst : List Char → List Char → List Char → List Char
  | [], _, _ => []
  | c :: rest, pat, rep =>
    if pat.isPrefixOf (c :: rest) then
      rep ++ (c :: rest).drop pat.length
    else
      c :: replaceFirst rest pat rep

/-- One attempted match of the regular expression `\$env\("([^"]+)"\)` at
the head of the input: on success, the captured name and the total
number of characters consumed by the match. -/
def parseEnvAt (s : List Char) : Option (List Char × Nat) :=
  if ("$env(\"".data).isPrefixOf s then
    let t := s.drop 6
    let name := t.takeWhile (fun c => c != '"')
    if name.isEmpty then none
    else
      match t.dropWhile (fun c => c != '"') with
      | '"' :: ')' :: _ => some (name, 6 + name.length + 2)
      | _ => none
  else none

/-- All matches of `\$env\("([^"]+)"\)` in scanning order, resuming
after the end of each match exactly as a global JavaScript regular
expression does (`skip` counts characters of the current match still to
be stepped over). -/
def envScanAux : List Char → Nat → List (List Char)
  | [], _ => []
  | _ :: rest, skip + 1 => envScanAux rest skip
  | c :: rest, 0 =>
    match parseEnvAt (c :: rest) with
    | some (name, consumed) => name :: envScanAux rest (consumed - 1)
    | none => envScanAux rest 0

/-- The environment-variable pass of `Executor.replaceVariables`: the
match list is computed once, then each match whose name is set in the
process environment is substituted by a first-occurrence string
replacement (`process.env[name] || ""` equals the stored value, the
empty string included). -/
def envPass (env : String → Option String) (s : List Char) : List Char :=
  (envScanAux s 0).foldl
    (fun r name =>
      match env (String.mk name) with
      | some v => replaceFirst r ("$env(\"".data ++ name ++ "\")".data) v.data
      | none => r)
    s

/-- The positional-argument pass of `Executor.replaceVariables`:
`taskArgs.forEach((arg, index) => result.replace(new RegExp("\\?" +
(index + 1), "g"), arg))`. -/
def positionalPass : Nat → List String → List Char → List Char
  | _, [], s => s
  | i, a :: rest, s =>
    positionalPass (i + 1) rest (replaceAll s ('?' :: (Nat.repr (i + 1)).data) a.data)

/-! ## Script model (src/utils.ts) -/

/-- A variable declaration in an SSAL script. -/
structure Variable where
  name : String
  value : String
deriving DecidableEq, Repr

/-- A command in an SSAL task. -/
structure Command where
  type : String
  args : List String
deriving DecidableEq, Repr

/-- A task in an SSAL script. -/
structure Task where
  name : String
  commands : List Command
deriving DecidableEq, Repr

/-- A parsed SSAL script. -/
structure SSALScript where
  «variables» : List Variable
  tasks : List Task
deriving DecidableEq, Repr

/-- The result of executing a command or a task. -/
structure ExecutionResult where
  success : Bool
  message : Option String
deriving DecidableEq, Repr

/-! ## Executor (src/executor.ts) -/

/-- Outcome of `child_process.exec`: the callback receives an error
value (null on success), and the collected standard output and error
texts; the exit code is carried for modelling but the executor never
reads it. -/
structure SpawnOutcome where
  error : Option String
  exitCode : Int
  stdout : String
  stderr : String

/-- The ambient system: shell spawning, `fs.unlinkSync` outcomes
(`none` is success, `some e` a thrown error message), the process
environment, and `path.resolve`. -/
structure Sys where
  spawn : String → SpawnOutcome
  unlink : String → Option String
  env : String → Option String
  resolve : String → String → String

/-- The state of one `Executor` instance together with the mutable
outside world it acts on: the fields `script` through
`globalVariables` mirror the private fields of the TypeScript class,
`fsExists` mirrors what `fs.existsSync` would answer, and `log` collects
console output in order. -/
structure Executor where
  script : SSALScript
  workingDir : String
  taskArgs : List (String × List String)
  namedArgs : List (String × String)
  globalVariables : List (String × String)
  fsExists : String → Bool
  log : List String

/-- The `Executor` constructor: the script and working directory are
stored and every argument and variable map starts empty. -/
def mkExecutor (script : SSALScript) (workingDir : String)
    (fs0 : String → Bool) : Executor :=
  { script := script, workingDir := workingDir, taskArgs := [],
    namedArgs := [], globalVariables := [], fsExists := fs0, log := [] }

/-- Assignment `m[k] = v` on a JavaScript object with string keys:
an existing key keeps its insertion position, a new key is appended. -/
def setEntry (m : List (String × String)) (k v : String) :
    List (String × String) :=
  if m.any (fun p => p.1 == k) then
    m.map (fun p => if p.1 == k then (k, v) else p)
  else
    m ++ [(k, v)]

/-- `Executor.replaceVariables`: positional task arguments, named
arguments, declared script variables, runtime global variables, and
finally environment references, in that order. -/
def replaceVariables (env : String → Option String) (ex : Executor)
    (taskName input : String) : String :=
  let r0 := input.data
  let args := (List.lookup taskName ex.taskArgs).getD []
  let r1 := positionalPass 0 args r0
  let r2 := ex.namedArgs.foldl
    (fun r p => replaceAll r ('?' :: p.1.data) p.2.data) r1
  let r3 := ex.script.«variables».foldl
    (fun r v => replaceAll r ('$' :: v.name.data) v.value.data) r2
  let r4 := ex.globalVariables.foldl
    (fun r p => replaceAll r ('$' :: p.1.data) p.2.data) r3
  String.mk (envPass env r4)

/-- `Executor.setTaskArgs`. -/
def setTaskArgs (ex : Executor) (taskName : String) (args : List String) :
    Executor :=
  { ex with taskArgs :=
      if ex.taskArgs.any (fun p => p.1 == taskName) then
        ex.taskArgs.map (fun p => if p.1 == taskName then (taskName, args) else p)
      else
        ex.taskArgs ++ [(taskName, args)] }

/-- `Executor.setNamedArgs` replaces the whole named-argument map. -/
def setNamedArgs (ex : Executor) (args : List (String × String)) : Executor :=
  { ex with namedArgs := args }

/-- `Executor.executeCommand`, parameterised by the continuation used
for the recursive `tsk` case.  Each branch resolves its text argument,
performs the side effect on the explicit world, and produces the
`ExecutionResult` of the source. -/
def execCmdWith (exeTask : String → Executor → ExecutionResult × Executor)
    (sys : Sys) (tn : String) (c : Command) (ex : Executor) :
    ExecutionResult × Executor :=
  if c.type = "run" then
    let cmdStr := replaceVariables sys.env ex tn (c.args.getD 0 "")
    let ex1 := { ex with log := ex.log ++ ["Running: " ++ cmdStr] }
    let out := sys.spawn cmdStr
    let ex2 := { ex1 with log := ex1.log
      ++ (if out.stdout = "" then [] else [out.stdout])
      ++ (if out.stderr = "" then [] else [out.stderr]) }
    match out.error with
    | some m =>
      ({ success := false, message := some ("Command failed: " ++ m) }, ex2)
    | none =>
      ({ success := true, message := some "Command executed successfully" }, ex2)
  else if c.type = "del" then
    let fp := replaceVariables sys.env ex tn (c.args.getD 0 "")
    let fullPath := sys.resolve ex.workingDir fp
    if ex.fsExists fullPath then
      match sys.unlink fullPath with
      | none =>
        ({ success := true, message := none },
         { ex with
            fsExists := fun p => if p = fullPath then false else ex.fsExists p,
            log := ex.log ++ ["Deleted: " ++ fp] })
      | some e =>
        ({ success := false,
           message := some ("Failed to delete " ++ fp ++ ": " ++ e) }, ex)
    else
      ({ success := true, message := none },
       { ex with log := ex.log ++ ["Warning: File " ++ fp ++ " does not exist"] })
  else if c.type = "ech" then
    let msg := replaceVariables sys.env ex tn (c.args.getD 0 "")
    ({ success := true, message := none }, { ex with log := ex.log ++ [msg] })
  else if c.type = "tsk" then
    let name := replaceVariables sys.env ex tn (c.args.getD 0 "")
    let ex1 := { ex with log := ex.log ++ ["Running task: " ++ name] }
    let p := exeTask name ex1
    if p.1.success then
      ({ success := true,
         message := some ("Task \"" ++ name ++ "\" completed successfully") }, p.2)
    else p
  else if c.type = "var" then
    let value := replaceVariables sys.env ex tn (c.args.getD 1 "")
    ({ success := true, message := none },
     { ex with globalVariables := setEntry ex.globalVariables (c.args.getD 0 "") value })
  else
    ({ success := false, message := some ("Unknown command: " ++ c.type) }, ex)

/-- The command loop of `Executor.executeTask`: commands run in declared
order, the first failing result is returned unchanged, and exhausting
the list yields the success message of the source. -/
def runCmdsWith (exeTask : String → Executor → ExecutionResult × Executor)
    (sys : Sys) (tn : String) :
    List Command → Executor → ExecutionResult × Executor
  | [], ex =>
    ({ success := true,
       message := some ("Task \"" ++ tn ++ "\" completed successfully") }, ex)
  | c :: rest, ex =>
    match execCmdWith exeTask sys tn c ex with
    | (r, ex1) =>
      if r.success then runCmdsWith exeTask sys tn rest ex1 else (r, ex1)

/-- `Executor.executeTask`, with a fuel bound on the depth of recursive
`tsk` invocations (the source recurses without any guard; exhausting
the fuel models the stack overflow that unbounded recursion produces). -/
def executeTaskFuel (sys : Sys) : Nat → String → Executor → ExecutionResult × Executor
  | 0, _, ex =>
    ({ success := false, message := some "Maximum call stack size exceeded" }, ex)
  | fuel + 1, taskName, ex =>
    match ex.script.tasks.find? (fun t => t.name == taskName) with
    | none =>
      ({ success := false,
         message := some ("Task \"" ++ taskName ++ "\" not found") }, ex)
    | some task => runCmdsWith (executeTaskFuel sys fuel) sys taskName task.commands ex

/-- Runs a command list from a state, producing the final state when
every command succeeds and `none` as soon as one fails. -/
def collectOk (exeTask : String → Executor → ExecutionResult × Executor)
    (sys : Sys) (tn : String) : List Command → Executor → Option Executor
  | [], ex => some ex
  | c :: rest, ex =>
    match execCmdWith exeTask sys tn c ex with
    | (r, ex1) => if r.success then collectOk exeTask sys tn rest ex1 else none

/-- `collectOk` at the continuation actually used by `executeTask`. -/
def runAllOk (sys : Sys) (fuel : Nat) (tn : String) :
    List Command → Executor → Option Executor :=
  collectOk (executeTaskFuel sys fuel) sys tn

/-! ## Parser (src/parser.ts)

Each regular expression of the source is rendered as a deterministic
matcher at one start position plus a left-to-right scan over start
positions (the expressions are unanchored).  For these particular
expressions maximal-munch matching of `\s+`, `\w+` and `[^"]*` agrees
with the backtracking semantics, except in `\s+(\w+)\s+(.+)$` at a line
ending in whitespace, where backtracking surrenders the final
whitespace character to `(.+)`; that case is reproduced explicitly. -/

/-- Tries a matcher at every start position, leftmost match first. -/
def scanFor (m : List Char → Option α) : List Char → Option α
  | [] => none
  | c :: rest =>
    match m (c :: rest) with
    | some r => some r
    | none => scanFor m rest

/-- Match of `var\s+(\w+)\s*=\s*"([^"]*)"$` at one start position. -/
def matchVarAt (s : List Char) : Option (String × String) :=
  if ("var".data).isPrefixOf s then
    let t0 := s.drop 3
    if (t0.takeWhile isWs).isEmpty then none
    else
      let t1 := t0.dropWhile isWs
      let nm := t1.takeWhile isWordChar
      if nm.isEmpty then none
      else
        match (t1.dropWhile isWordChar).dropWhile isWs with
        | '=' :: t4 =>
          (match t4.dropWhile isWs with
           | '"' :: t6 =>
             let vl := t6.takeWhile (fun c => c != '"')
             (match t6.dropWhile (fun c => c != '"') with
              | ['"'] => some (String.mk nm, String.mk vl)
              | _ => none)
           | _ => none)
        | _ => none
  else none

/-- Unanchored search for `var\s+(\w+)\s*=\s*"([^"]*)"$`. -/
def findVarMatch : List Char → Option (String × String) :=
  scanFor matchVarAt

/-- Match of `task\s+(\w+):$` at one start position. -/
def matchTaskAt (s : List Char) : Option String :=
  if ("task".data).isPrefixOf s then
    let t0 := s.drop 4
    if (t0.takeWhile isWs).isEmpty then none
    else
      let t1 := t0.dropWhile isWs
      let nm := t1.takeWhile isWordChar
      if nm.isEmpty then none
      else
        match t1.dropWhile isWordChar with
        | [':'] => some (String.mk nm)
        | _ => none
  else none

/-- Unanchored search for `task\s+(\w+):$`. -/
def findTaskMatch : List Char → Option String :=
  scanFor matchTaskAt

/-- Match of `\s+(\w+)\s+"([^"]*)"\s+"([^"]*)"$` at one start position
(two quoted arguments). -/
def matchTwoArgAt (s : List Char) : Option Command :=
  if (s.takeWhile isWs).isEmpty then none
  else
    let s1 := s.dropWhile isWs
    let nm := s1.takeWhile isWordChar
    if nm.isEmpty then none
    else
      let s2 := s1.dropWhile isWordChar
      if (s2.takeWhile isWs).isEmpty then none
      else
        match s2.dropWhile isWs with
        | '"' :: t =>
          let a1 := t.takeWhile (fun c => c != '"')
          (match t.dropWhile (fun c => c != '"') with
           | '"' :: u =>
             if (u.takeWhile isWs).isEmpty then none
             else
               (match u.dropWhile isWs with
                | '"' :: r =>
                  let a2 := r.takeWhile (fun c => c != '"')
                  (match r.dropWhile (fun c => c != '"') with
                   | ['"'] => some ⟨String.mk nm, [String.mk a1, String.mk a2]⟩
                   | _ => none)
                | _ => none)
           | _ => none)
        | _ => none

/-- Match of `\s+(\w+)\s+"([^"]*)"$` at one start position (one quoted
argument reaching the end of the line). -/
def matchOneQuotedAt (s : List Char) : Option Command :=
  if (s.takeWhile isWs).isEmpty then none
  else
    let s1 := s.dropWhile isWs
    let nm := s1.takeWhile isWordChar
    if nm.isEmpty then none
    else
      let s2 := s1.dropWhile isWordChar
      if (s2.takeWhile isWs).isEmpty then none
      else
        match s2.dropWhile isWs with
        | '"' :: t =>
          let a1 := t.takeWhile (fun c => c != '"')
          (match t.dropWhile (fun c => c != '"') with
           | ['"'] => some ⟨String.mk nm, [String.mk a1]⟩
           | _ => none)
        | _ => none

/-- Match of `\s+(\w+)\s+"([^"]*)"\s*(.*)$` at one start position (a
quoted argument followed by an unquoted tail merged into one argument,
with a separating space when the trimmed tail is nonempty). -/
def matchQuotedTailAt (s : List Char) : Option Command :=
  if (s.takeWhile isWs).isEmpty then none
  else
    let s1 := s.dropWhile isWs
    let nm := s1.takeWhile isWordChar
    if nm.isEmpty then none
    else
      let s2 := s1.dropWhile isWordChar
      if (s2.takeWhile isWs).isEmpty then none
      else
        match s2.dropWhile isWs with
        | '"' :: t =>
          let a1 := t.takeWhile (fun c => c != '"')
          (match t.dropWhile (fun c => c != '"') with
           | '"' :: u =>
             let tail := u.dropWhile isWs
             some ⟨String.mk nm,
               [String.mk a1 ++
                 (if tail.isEmpty then "" else " " ++ String.mk (trimList tail))]⟩
           | _ => none)
        | _ => none

/-- Match of `\s+(\w+)\s+(.+)$` at one start position (unquoted tail).
When the line ends in whitespace after the keyword, backtracking leaves
exactly the last whitespace character to `(.+)`. -/
def matchUnquotedAt (s : List Char) : Option Command :=
  if (s.takeWhile isWs).isEmpty then none
  else
    let s1 := s.dropWhile isWs
    let nm := s1.takeWhile isWordChar
    if nm.isEmpty then none
    else
      let s2 := s1.dropWhile isWordChar
      let wsRun := s2.takeWhile isWs
      if wsRun.isEmpty then none
      else
        match s2.dropWhile isWs with
        | [] =>
          if 2 ≤ wsRun.length then
            match wsRun.getLast? with
            | some ch => some ⟨String.mk nm, [String.mk [ch]]⟩
            | none => none
          else none
        | r => some ⟨String.mk nm, [String.mk r]⟩

/-- The ordered cascade of command patterns, most specific first; the
first expression to match anywhere in the raw line wins. -/
def parseCommandLine (raw : List Char) : Option Command :=
  match scanFor matchTwoArgAt raw with
  | some c => some c
  | none =>
    match scanFor matchOneQuotedAt raw with
    | some c => some c
    | none =>
      match scanFor matchQuotedTailAt raw with
      | some c => some c
      | none => scanFor matchUnquotedAt raw

/-- The anchored guard `^\s+\w+` on the raw line. -/
def leadWsWord (raw : List Char) : Bool :=
  match raw with
  | [] => false
  | c :: _ =>
    isWs c &&
      (match raw.dropWhile isWs with
       | d :: _ => isWordChar d
       | [] => false)

/-- Parser state while scanning lines: the collected declarations plus
whether a task is currently open (`currentTask` of the source is the
last task pushed, and is never closed once set). -/
structure PState where
  «variables» : List Variable
  tasks : List Task
  taskOpen : Bool
deriving DecidableEq, Repr

/-- Appends a command to the commands of the last (current) task. -/
def pushCmd : List Task → Command → List Task
  | [], _ => []
  | [t], c => [{ t with commands := t.commands ++ [c] }]
  | t :: ts, c => t :: pushCmd ts c

/-- One line of `parseSSALContent`: skip blank and comment lines, then
the `var` branch (a command when a task is open, a global declaration
otherwise), then the `task` branch, then the command cascade guarded by
an open task and leading whitespace. -/
def processLine (st : PState) (rawLine : List Char) : PState :=
  let line := trimList rawLine
  if line.isEmpty then st
  else if ("#".data).isPrefixOf line then st
  else if ("var ".data).isPrefixOf line then
    match findVarMatch line with
    | some (n, v) =>
      if st.taskOpen then
        { st with tasks := pushCmd st.tasks ⟨"var", [n, v]⟩ }
      else
        { st with «variables» := st.«variables» ++ [⟨n, v⟩] }
    | none => st
  else if ("task ".data).isPrefixOf line then
    match findTaskMatch line with
    | some n => { st with tasks := st.tasks ++ [⟨n, []⟩], taskOpen := true }
    | none => st
  else if st.taskOpen && leadWsWord rawLine then
    match parseCommandLine rawLine with
    | some c => { st with tasks := pushCmd st.tasks c }
    | none => st
  else st

/-- Splitting on the newline character, as JavaScript `split("\n")`. -/
def splitNl : List Char → List (List Char)
  | [] => [[]]
  | '\n' :: rest => [] :: splitNl rest
  | c :: rest =>
    match splitNl rest with
    | [] => [[c]]
    | l :: ls => (c :: l) :: ls

/-- `parseSSALContent`: fold the line processor over the lines. -/
def parseSSALContent (content : String) : SSALScript :=
  let final := (splitNl content.data).foldl processLine ⟨[], [], false⟩
  ⟨final.«variables», final.tasks⟩

/-! ## Laws of the replacement scanner -/

theorem isPrefixOf_append_self (l r : List Char) :
    l.isPrefixOf (l ++ r) = true := by
  induction l with
  | nil => simp [List.isPrefixOf]
  | cons a as ih => simp [List.isPrefixOf, ih]

theorem replaceAllAux_skip_all (pat rep : List Char) :
    ∀ u v : List Char,
      replaceAllAux pat rep (u ++ v) u.length = replaceAllAux pat rep v 0 := by
  intro u
  induction u with
  | nil => intro v; rfl
  | cons c u ih => intro v; simpa [replaceAllAux] using ih v

theorem replaceAllAux_no_head (p : Char) (pr rep : List Char) :
    ∀ s : List Char, (∀ c ∈ s, c ≠ p) →
      replaceAllAux (p :: pr) rep s 0 = s := by
  intro s
  induction s with
  | nil => intro _; rfl
  | cons c rest ih =>
    intro h
    have hc : (p == c) = false := by
      simp [beq_eq_false_iff_ne]
      exact fun hpc => (h c (by simp)) hpc.symm
    simp [replaceAllAux, List.isPrefixOf, hc]
    exact ih fun d hd => h d (by simp [hd])

theorem replaceAllAux_append_clean (p : Char) (pr rep : List Char) :
    ∀ x y : List Char, (∀ c ∈ x, c ≠ p) →
      replaceAllAux (p :: pr) rep (x ++ y) 0 =
        x ++ replaceAllAux (p :: pr) rep y 0 := by
  intro x
  induction x with
  | nil => intro y _; rfl
  | cons c x ih =>
    intro y h
    have hc : (p == c) = false := by
      simp [beq_eq_false_iff_ne]
      exact fun hpc => (h c (by simp)) hpc.symm
    simp [replaceAllAux, List.isPrefixOf, hc]
    exact ih y fun d hd => h d (by simp [hd])

theorem replaceAllAux_head_match (p : Char) (pr rep y : List Char) :
    replaceAllAux (p :: pr) rep ((p :: pr) ++ y) 0 =
      rep ++ replaceAllAux (p :: pr) rep y 0 := by
  have hpre : (p :: pr).isPrefixOf (p :: (pr ++ y)) = true := by
    exact isPrefixOf_append_self (p :: pr) y
  show replaceAllAux (p :: pr) rep (p :: (pr ++ y)) 0 =
    rep ++ replaceAllAux (p :: pr) rep y 0
  rw [replaceAllAux, hpre]
  have hskip := replaceAllAux_skip_all (p :: pr) rep pr y
  simp only [List.length_cons, Nat.add_sub_cancel, if_true]
  rw [hskip]

theorem replaceAll_self (p : Char) (pr rep : List Char) :
    replaceAll (p :: pr) (p :: pr) rep = rep := by
  have := replaceAllAux_head_match p pr rep []
  simpa [replaceAll, replaceAllAux] using this

theorem replaceAll_clean (p : Char) (pr rep : List Char) (s : List Char)
    (h : ∀ c ∈ s, c ≠ p) : replaceAll s (p :: pr) rep = s :=
  replaceAllAux_no_head p pr rep s h

theorem envScanAux_drain : ∀ (s : List Char) (k : Nat), s.length ≤ k →
    envScanAux s k = [] := by
  intro s
  induction s with
  | nil => intro k _; cases k <;> rfl
  | cons c rest ih =>
    intro k hk
    match k, hk with
    | kk + 1, hk => exact ih kk (Nat.le_of_succ_le_succ hk)

theorem parseEnvAt_no_dollar (c : Char) (rest : List Char) (hc : c ≠ '$') :
    parseEnvAt (c :: rest) = none := by
  have hdata : "$env(\"".data = '$' :: "env(\"".data := rfl
  have hb : ('$' == c) = false := by
    simp only [beq_eq_false_iff_ne]
    exact fun h => hc h.symm
  have hpre : (("$env(\"".data).isPrefixOf (c :: rest)) = false := by
    rw [hdata]
    simp [List.isPrefixOf, hb]
  simp [parseEnvAt, hpre]

theorem envScan_no_dollar : ∀ s : List Char, '$' ∉ s → envScanAux s 0 = [] := by
  intro s
  induction s with
  | nil => intro _; rfl
  | cons c rest ih =>
    intro h
    have hc : c ≠ '$' := fun hc => h (by simp [hc])
    have hrest : '$' ∉ rest := fun hm => h (by simp [hm])
    simp [envScanAux, parseEnvAt_no_dollar c rest hc]
    exact ih hrest

theorem envPass_no_dollar (env : String → Option String) (s : List Char)
    (h : '$' ∉ s) : envPass env s = s := by
  simp [envPass, envScan_no_dollar s h]

theorem isPrefixOf_self (l : List Char) : l.isPrefixOf l = true := by
  simp

theorem takeWhile_append_all (p : Char → Bool) :
    ∀ u v : List Char, (∀ c ∈ u, p c = true) →
      List.takeWhile p (u ++ v) = u ++ List.takeWhile p v := by
  intro u
  induction u with
  | nil => intro v _; rfl
  | cons c u ih =>
    intro v h
    have hc : p c = true := h c (by simp)
    simp [List.takeWhile, hc]
    exact ih v fun d hd => h d (by simp [hd])

theorem dropWhile_append_all (p : Char → Bool) :
    ∀ u v : List Char, (∀ c ∈ u, p c = true) →
      List.dropWhile p (u ++ v) = List.dropWhile p v := by
  intro u
  induction u with
  | nil => intro v _; rfl
  | cons c u ih =>
    intro v h
    have hc : p c = true := h c (by simp)
    simp [List.dropWhile, hc]
    exact ih v fun d hd => h d (by simp [hd])

theorem replaceFirst_self (c : Char) (rest rep : List Char) :
    replaceFirst (c :: rest) (c :: rest) rep = rep := by
  simp [replaceFirst, isPrefixOf_self, List.drop_length]

theorem data_ne_nil (s : String) (h : s ≠ "") : s.data ≠ [] := by
  intro hd
  apply h
  cases s with
  | mk l =>
    simp only [String.data] at hd
    rw [hd]

/-! ## Shared concrete fixtures used by witnesses and counterexamples -/

/-- An environment in which no variable is set. -/
def envNone : String → Option String := fun _ => none

/-- A benign system: every spawn succeeds with empty output, deletion
never throws, no environment variable is set. -/
def sysTest : Sys :=
  ⟨fun _ => ⟨none, 0, "", ""⟩, fun _ => none, envNone, fun a b => a ++ "/" ++ b⟩

/-- A fresh executor over a script, with an empty file system. -/
def baseEx (script : SSALScript) : Executor :=
  mkExecutor script "" (fun _ => false)

/-! ## Claims -/

/-- Claim C3: for every `run` command, the returned `ExecutionResult`
has `success = true` exactly when the spawn mechanism reports no error;
the exit code of the child process is never consulted, so a process
that exits with a non-zero status but without a spawn error is reported
as a success (the statement quantifies over every system, including
those whose outcome carries a non-zero `exitCode` with `error = none`). -/
theorem ssal_C3_run_success_iff_no_spawn_error
    (exeTask : String → Executor → ExecutionResult × Executor)
    (sys : Sys) (tn cmdText : String) (ex : Executor) :
    ((execCmdWith exeTask sys tn ⟨"run", [cmdText]⟩ ex).1).success =
      ((sys.spawn (replaceVariables sys.env ex tn cmdText)).error).isNone := by
  cases h : (sys.spawn (replaceVariables sys.env ex tn cmdText)).error <;>
    simp [execCmdWith, h]

/-- Claim C9: executing a task name that matches no task of the script
returns the failure result with message `Task "<name>" not found`, and
the executor state is returned untouched (no command runs). -/
theorem ssal_C9_task_not_found (sys : Sys) (fuel : Nat) (name : String)
    (ex : Executor) (h : ∀ t ∈ ex.script.tasks, t.name ≠ name) :
    executeTaskFuel sys (fuel + 1) name ex =
      ({ success := false,
         message := some ("Task \"" ++ name ++ "\" not found") }, ex) := by
  have hf : ex.script.tasks.find? (fun t => t.name == name) = none := by
    rw [List.find?_eq_none]
    intro t ht
    simp [h t ht]
  simp [executeTaskFuel, hf]

/-- Witness for C9 at a concrete script without a task named nope. -/
theorem ssal_C9_witness :
    executeTaskFuel sysTest 1 "nope" (baseEx ⟨[], [⟨"build", []⟩]⟩) =
      ({ success := false, message := some "Task \"nope\" not found" },
       baseEx ⟨[], [⟨"build", []⟩]⟩) :=
  ssal_C9_task_not_found sysTest 0 "nope" (baseEx ⟨[], [⟨"build", []⟩]⟩)
    (by decide)

/-- Resolution over an executor with no arguments and no variables
reduces to the environment pass. -/
theorem replaceVariables_empty (envf : String → Option String)
    (tn s : String) :
    replaceVariables envf (baseEx ⟨[], []⟩) tn s =
      String.mk (envPass envf s.data) := rfl

theorem parseEnvAt_full (name : List Char) (hne : name ≠ [])
    (hq : ∀ c ∈ name, (c != '"') = true) :
    parseEnvAt ("$env(\"".data ++ name ++ ['"', ')']) =
      some (name, 6 + name.length + 2) := by
  have hassoc : "$env(\"".data ++ name ++ ['"', ')'] =
      "$env(\"".data ++ (name ++ ['"', ')']) := by
    rw [List.append_assoc]
  have hpre : ("$env(\"".data).isPrefixOf
      ("$env(\"".data ++ (name ++ ['"', ')'])) = true :=
    isPrefixOf_append_self _ _
  have h6 : ("$env(\"".data).length = 6 := rfl
  have hdrop : ("$env(\"".data ++ (name ++ ['"', ')'])).drop 6 =
      name ++ ['"', ')'] := by
    rw [← h6, List.drop_left]
  have htake : List.takeWhile (fun c => c != '"') (name ++ ['"', ')']) =
      name := by
    rw [takeWhile_append_all _ name ['"', ')'] hq]
    simp [List.takeWhile]
  have hdropW : List.dropWhile (fun c => c != '"') (name ++ ['"', ')']) =
      ['"', ')'] := by
    rw [dropWhile_append_all _ name ['"', ')'] hq]
    simp [List.dropWhile]
  have hempty : name.isEmpty = false := by
    cases name with
    | nil => exact absurd rfl hne
    | cons a l => rfl
  rw [hassoc]
  simp only [parseEnvAt, hpre, if_true, hdrop, htake, hdropW, hempty]
  simp

theorem envScanAux_cons_match (c : Char) (rest name : List Char) (k : Nat)
    (hp : parseEnvAt (c :: rest) = some (name, k)) :
    envScanAux (c :: rest) 0 = name :: envScanAux rest (k - 1) := by
  simp only [envScanAux, hp]

theorem envScan_single (name : List Char) (hne : name ≠ [])
    (hq : ∀ c ∈ name, (c != '"') = true) :
    envScanAux ("$env(\"".data ++ name ++ ['"', ')']) 0 = [name] := by
  have hsplit : "$env(\"".data ++ name ++ ['"', ')'] =
      '$' :: ("env(\"".data ++ (name ++ ['"', ')'])) := by
    have h1 : "$env(\"".data = '$' :: "env(\"".data := rfl
    rw [h1, List.cons_append, List.cons_append, List.append_assoc]
  have hp := parseEnvAt_full name hne hq
  rw [hsplit] at hp ⊢
  rw [envScanAux_cons_match _ _ _ _ hp]
  have hlen : ("env(\"".data ++ (name ++ ['"', ')'])).length ≤
      6 + name.length + 2 - 1 := by
    simp [List.length_append]
    omega
  rw [envScanAux_drain _ _ hlen]

theorem envPass_single (envf : String → Option String) (name : List Char)
    (hne : name ≠ []) (hq : ∀ c ∈ name, (c != '"') = true) :
    envPass envf ("$env(\"".data ++ name ++ "\")".data) =
      (match envf (String.mk name) with
       | some v => v.data
       | none => "$env(\"".data ++ name ++ "\")".data) := by
  have h2 : "\")".data = ['"', ')'] := rfl
  rw [h2]
  unfold envPass
  rw [h2, envScan_single name hne hq]
  cases hv : envf (String.mk name) with
  | none => simp [hv]
  | some v =>
    simp only [List.foldl, hv]
    have hsplit : "$env(\"".data ++ name ++ ['"', ')'] =
        '$' :: ("env(\"".data ++ (name ++ ['"', ')'])) := by
      have h1 : "$env(\"".data = '$' :: "env(\"".data := rfl
      rw [h1, List.cons_append, List.cons_append, List.append_assoc]
    rw [hsplit, replaceFirst_self]

/-- Claim C2 fails on the code: an environment reference whose name is
not set is left unreplaced in the text rather than being substituted by
the empty string, because the source only replaces a match when
`process.env[name] !== undefined`. -/
theorem ssal_C2_counterexample :
    replaceVariables envNone (baseEx ⟨[], []⟩) "t" "$env(\"FOO\")" =
        "$env(\"FOO\")" ∧
      replaceVariables envNone (baseEx ⟨[], []⟩) "t" "$env(\"FOO\")" ≠ "" := by
  constructor
  · rfl
  · decide

/-- Amended claim C2: a token `$env("NAME")` is replaced by the value of
NAME when NAME is set in the process environment (a value set to the
empty string included), and is left unchanged in the text when NAME is
unset; an unset lookup does not resolve to the empty string. -/
theorem ssal_C2_amended (envf : String → Option String) (name v : String)
    (hne : name ≠ "") (hq : ∀ c ∈ name.data, c ≠ '"') (_hv : '$' ∉ v.data) :
    (envf name = some v →
      replaceVariables envf (baseEx ⟨[], []⟩) "t" ("$env(\"" ++ name ++ "\")") = v)
    ∧ (envf name = none →
      replaceVariables envf (baseEx ⟨[], []⟩) "t" ("$env(\"" ++ name ++ "\")") =
        "$env(\"" ++ name ++ "\")") := by
  have hq2 : ∀ c ∈ name.data, (c != '"') = true := by
    intro c hc
    simp only [bne_iff_ne]
    exact hq c hc
  have hnd : name.data ≠ [] := data_ne_nil name hne
  have hData : ("$env(\"" ++ name ++ "\")").data =
      "$env(\"".data ++ name.data ++ "\")".data := by
    simp [String.data_append]
  have hmk : String.mk name.data = name := rfl
  have hep := envPass_single envf name.data hnd hq2
  rw [hmk] at hep
  constructor
  · intro hset
    rw [replaceVariables_empty, hData, hep, hset]
  · intro hunset
    rw [replaceVariables_empty, hData, hep, hunset]
    show String.mk (("$env(\"" ++ name ++ "\")").data) =
      "$env(\"" ++ name ++ "\")"
    rfl

/-- Witness for the amended claim C2: with FOO set to bar the token
resolves to bar, with BAR unset the token is preserved. -/
theorem ssal_C2_witness :
    replaceVariables (fun n => if n = "FOO" then some "bar" else none)
        (baseEx ⟨[], []⟩) "t" "$env(\"FOO\")" = "bar" ∧
      replaceVariables (fun n => if n = "FOO" then some "bar" else none)
        (baseEx ⟨[], []⟩) "t" "$env(\"BAR\")" = "$env(\"BAR\")" :=
  ⟨(ssal_C2_amended (fun n => if n = "FOO" then some "bar" else none)
      "FOO" "bar" (by decide) (by decide) (by decide)).1 (by decide),
   (ssal_C2_amended (fun n => if n = "FOO" then some "bar" else none)
      "BAR" "" (by decide) (by decide) (by decide)).2 (by decide)⟩

/-! ## Claims about substitution order (C1, C10, C5) -/

/-- Unfolded shape of `replaceVariables`, used to rewrite pass by pass. -/
theorem replaceVariables_eq (envf : String → Option String) (ex : Executor)
    (tn input : String) :
    replaceVariables envf ex tn input =
      String.mk (envPass envf
        (ex.globalVariables.foldl
          (fun r p => replaceAll r ('$' :: p.1.data) p.2.data)
          (ex.script.«variables».foldl
            (fun r v => replaceAll r ('$' :: v.name.data) v.value.data)
            (ex.namedArgs.foldl
              (fun r p => replaceAll r ('?' :: p.1.data) p.2.data)
              (positionalPass 0 ((List.lookup tn ex.taskArgs).getD [])
                input.data))))) := rfl

theorem replaceAll_head (p : Char) (pr rep y : List Char) :
    replaceAll ((p :: pr) ++ y) (p :: pr) rep =
      rep ++ replaceAll y (p :: pr) rep :=
  replaceAllAux_head_match p pr rep y

theorem replaceAll_append_clean (p : Char) (pr rep x y : List Char)
    (hx : ∀ c ∈ x, c ≠ p) :
    replaceAll (x ++ y) (p :: pr) rep = x ++ replaceAll y (p :: pr) rep :=
  replaceAllAux_append_clean p pr rep x y hx

theorem replaceAll_two_mismatch (p q c : Char) (rep : List Char)
    (hq : q ≠ c) (hp : p ≠ c) :
    replaceAll [p, c] [p, q] rep = [p, c] := by
  have h1 : (q == c) = false := beq_eq_false_iff_ne.mpr hq
  have h2 : (p == c) = false := beq_eq_false_iff_ne.mpr hp
  simp [replaceAll, replaceAllAux, List.isPrefixOf, h1, h2]

/-- Claim C1 fails on the code.  A script declares NAME as d; executing
task t runs `var NAME = "r"`, so the runtime map afterwards holds
NAME bound to r; yet resolving the token `$NAME` yields the declared
value d, not the runtime value r: the declared-variable pass runs first
and consumes the token before the runtime pass can see it. -/
theorem ssal_C1_counterexample :
    ((executeTaskFuel sysTest 1 "t"
        (baseEx ⟨[⟨"NAME", "d"⟩], [⟨"t", [⟨"var", ["NAME", "r"]⟩]⟩]⟩)).2
      ).globalVariables = [("NAME", "r")]
    ∧ replaceVariables sysTest.env
        (executeTaskFuel sysTest 1 "t"
          (baseEx ⟨[⟨"NAME", "d"⟩], [⟨"t", [⟨"var", ["NAME", "r"]⟩]⟩]⟩)).2
        "t" "$NAME" = "d"
    ∧ ("d" : String) ≠ "r" := by
  refine ⟨rfl, rfl, ?_⟩
  decide

/-- Amended claim C1: when a declared global variable NAME and a
runtime global variable NAME both exist, resolving `$NAME` yields the
DECLARED value: the declared-variable pass runs before the runtime
pass, so its substitution consumes the token and the runtime assignment
does not override it (a runtime variable takes effect only for names
with no same-named declared variable). -/
theorem ssal_C1_amended (N dv rv : String) (h : '$' ∉ dv.data) :
    replaceVariables envNone
      { baseEx ⟨[⟨N, dv⟩], []⟩ with globalVariables := [(N, rv)] } "t"
      ("$" ++ N) = dv := by
  have hdata : ("$" ++ N).data = '$' :: N.data := by
    simp [String.data_append]
  have hclean : ∀ c ∈ dv.data, c ≠ '$' := fun c hc hceq => h (hceq ▸ hc)
  rw [replaceVariables_eq]
  simp only [baseEx, mkExecutor, List.lookup, Option.getD, positionalPass,
    List.foldl, hdata]
  rw [replaceAll_self, replaceAll_clean '$' N.data rv.data dv.data hclean,
    envPass_no_dollar envNone dv.data h]

/-- Witness for the amended claim C1 at NAME declared d, runtime r. -/
theorem ssal_C1_witness :
    replaceVariables envNone
      { baseEx ⟨[⟨"NAME", "d"⟩], []⟩ with globalVariables := [("NAME", "r")] }
      "t" "$NAME" = "d" :=
  ssal_C1_amended "NAME" "d" "r" (by decide)

/-- Claim C10: substitution performs no word-boundary check after a
variable name.  With a declared variable A of value v (no other
variables present), the input `$AB` resolves to v followed by B: the
occurrence of `$A` inside the longer token `$AB` is replaced. -/
theorem ssal_C10_no_word_boundary (v : String) (h : '$' ∉ v.data) :
    replaceVariables envNone (baseEx ⟨[⟨"A", v⟩], []⟩) "t" "$AB" =
      v ++ "B" := by
  have hdata : "$AB".data = ('$' :: ['A']) ++ ['B'] := rfl
  have hclean : ∀ c ∈ v.data ++ ['B'], c ≠ '$' := by
    intro c hc hceq
    subst hceq
    rcases List.mem_append.mp hc with hm | hm
    · exact h hm
    · simp at hm
  have hmem : '$' ∉ v.data ++ ['B'] := fun hm => hclean '$' hm rfl
  show String.mk (envPass envNone
    (replaceAll (('$' :: ['A']) ++ ['B']) ('$' :: ['A']) v.data)) = v ++ "B"
  rw [replaceAll_head]
  have hBv : replaceAll ['B'] ('$' :: ['A']) v.data = ['B'] :=
    replaceAll_clean '$' ['A'] v.data ['B'] (by decide)
  rw [hBv, envPass_no_dollar envNone _ hmem]
  have hjoin : v.data ++ ['B'] = (v ++ "B").data := by
    simp [String.data_append]
  rw [hjoin]

/-- Witness for C10 at A bound to x: `$AB` resolves to xB. -/
theorem ssal_C10_witness :
    replaceVariables envNone (baseEx ⟨[⟨"A", "x"⟩], []⟩) "t" "$AB" = "xB" :=
  ssal_C10_no_word_boundary "x" (by decide)

/-- Claim C5 fails on the code as universally stated: with two
registered positional arguments (so k = 12 is beyond the argument
count), the occurrence of `?12` is not left unreplaced — the pass for
`?1` rewrites its prefix, producing `a2`. -/
theorem ssal_C5_counterexample :
    replaceVariables envNone
        { baseEx ⟨[], []⟩ with taskArgs := [("t", ["a", "b"])] } "t" "?12" =
      "a2"
    ∧ ("a2" : String) ≠ "?12" := by
  refine ⟨rfl, ?_⟩
  decide

theorem positionalPass_pair (a b : String) (ha : '?' ∉ a.data) :
    positionalPass 0 [a, b] "?1-?2".data = a.data ++ '-' :: b.data := by
  show replaceAll (replaceAll "?1-?2".data ['?', '1'] a.data) ['?', '2'] b.data =
    a.data ++ '-' :: b.data
  have hsplit : "?1-?2".data = (('?' :: ['1']) ++ (['-'] ++ ['?', '2'])) := rfl
  have s1 : replaceAll "?1-?2".data ['?', '1'] a.data =
      a.data ++ (['-'] ++ ['?', '2']) := by
    rw [hsplit, replaceAll_head,
      replaceAll_append_clean '?' ['1'] a.data ['-'] ['?', '2'] (by decide),
      replaceAll_two_mismatch '?' '1' '2' a.data (by decide) (by decide)]
  rw [s1]
  have hx : ∀ c ∈ a.data ++ ['-'], c ≠ '?' := by
    intro c hc hceq
    subst hceq
    rcases List.mem_append.mp hc with hm | hm
    · exact ha hm
    · simp at hm
  have hsplit2 : a.data ++ (['-'] ++ ['?', '2']) =
      (a.data ++ ['-']) ++ (('?' :: ['2']) ++ []) := by
    simp
  rw [hsplit2, replaceAll_append_clean '?' ['2'] b.data _ _ hx,
    replaceAll_head]
  simp [replaceAll, replaceAllAux]

/-- Amended claim C5: with registered positional arguments whose values
contain no substitution tokens, an occurrence `?k` with k within the
argument count resolves to the k-th argument and a single-digit `?k`
beyond the argument count is left unreplaced (with arguments a, b the
text `?1-?2` resolves to a-b and `?3` stays `?3`); however an
out-of-range index whose decimal form extends an in-range index, such
as `?12` with two arguments, is not left intact: its in-range prefix is
rewritten (see the counterexample). -/
theorem ssal_C5_amended (a b : String) (ha1 : '?' ∉ a.data)
    (ha2 : '$' ∉ a.data) (hb2 : '$' ∉ b.data) :
    replaceVariables envNone
        { baseEx ⟨[], []⟩ with taskArgs := [("t", [a, b])] } "t" "?1-?2" =
      a ++ "-" ++ b
    ∧ replaceVariables envNone
        { baseEx ⟨[], []⟩ with taskArgs := [("t", [a, b])] } "t" "?3" =
      "?3" := by
  constructor
  · show String.mk (envPass envNone (positionalPass 0 [a, b] "?1-?2".data)) =
      a ++ "-" ++ b
    rw [positionalPass_pair a b ha1]
    have hmem : '$' ∉ a.data ++ '-' :: b.data := by
      intro hm
      rcases List.mem_append.mp hm with hm | hm
      · exact ha2 hm
      · rcases List.mem_cons.mp hm with hm | hm
        · exact absurd hm.symm (by decide)
        · exact hb2 hm
    rw [envPass_no_dollar envNone _ hmem]
    have hjoin : a.data ++ '-' :: b.data = (a ++ "-" ++ b).data := by
      simp [String.data_append]
    rw [hjoin]
  · show String.mk (envPass envNone
      (replaceAll (replaceAll ['?', '3'] ['?', '1'] a.data) ['?', '2'] b.data)) =
      "?3"
    rw [replaceAll_two_mismatch '?' '1' '3' a.data (by decide) (by decide),
      replaceAll_two_mismatch '?' '2' '3' b.data (by decide) (by decide),
      envPass_no_dollar envNone _ (by decide)]

/-- Witness for the amended claim C5 at arguments a, b. -/
theorem ssal_C5_witness :
    replaceVariables envNone
        { baseEx ⟨[], []⟩ with taskArgs := [("t", ["a", "b"])] } "t" "?1-?2" =
      "a-b"
    ∧ replaceVariables envNone
        { baseEx ⟨[], []⟩ with taskArgs := [("t", ["a", "b"])] } "t" "?3" =
      "?3" :=
  ssal_C5_amended "a" "b" (by decide) (by decide) (by decide)

/-! ## Claim C8: idempotent delete -/

theorem del_missing (exeTask : String → Executor → ExecutionResult × Executor)
    (sys : Sys) (tn fp : String) (ex : Executor)
    (hmiss : ex.fsExists
      (sys.resolve ex.workingDir (replaceVariables sys.env ex tn fp)) = false) :
    execCmdWith exeTask sys tn ⟨"del", [fp]⟩ ex =
      ({ success := true, message := none },
       { ex with log := ex.log ++
          ["Warning: File " ++ replaceVariables sys.env ex tn fp ++
            " does not exist"] }) := by
  simp [execCmdWith, hmiss]

/-- Claim C8: a `del` command whose resolved path names no existing
file returns success, on a first and on an immediately repeated
invocation (the missing-file branch changes nothing but the console
log); a filesystem fault other than a missing file (the file exists and
unlink throws) yields a failure carrying the underlying error text. -/
theorem ssal_C8_del_idempotent
    (exeTask : String → Executor → ExecutionResult × Executor)
    (sys : Sys) (tn fp : String) (ex : Executor) :
    (ex.fsExists
        (sys.resolve ex.workingDir (replaceVariables sys.env ex tn fp)) = false →
      (execCmdWith exeTask sys tn ⟨"del", [fp]⟩ ex).1 =
          { success := true, message := none }
        ∧ (execCmdWith exeTask sys tn ⟨"del", [fp]⟩
            ((execCmdWith exeTask sys tn ⟨"del", [fp]⟩ ex).2)).1 =
          { success := true, message := none })
    ∧ (∀ e, ex.fsExists
        (sys.resolve ex.workingDir (replaceVariables sys.env ex tn fp)) = true →
      sys.unlink
        (sys.resolve ex.workingDir (replaceVariables sys.env ex tn fp)) = some e →
      execCmdWith exeTask sys tn ⟨"del", [fp]⟩ ex =
        ({ success := false,
           message := some ("Failed to delete " ++
             replaceVariables sys.env ex tn fp ++ ": " ++ e) }, ex)) := by
  constructor
  · intro hmiss
    rw [del_missing exeTask sys tn fp ex hmiss]
    constructor
    · rfl
    · show (execCmdWith exeTask sys tn ⟨"del", [fp]⟩
          { ex with log := ex.log ++
            ["Warning: File " ++ replaceVariables sys.env ex tn fp ++
              " does not exist"] }).1 =
        { success := true, message := none }
      rw [del_missing exeTask sys tn fp
        { ex with log := ex.log ++
          ["Warning: File " ++ replaceVariables sys.env ex tn fp ++
            " does not exist"] } hmiss]
  · intro e hex hu
    simp [execCmdWith, hex, hu]

/-- Witness for C8: deleting the missing file main succeeds twice on an
empty file system, and a permissions fault on an existing file fails
with the underlying error text. -/
theorem ssal_C8_witness :
    ((execCmdWith (executeTaskFuel sysTest 0) sysTest "t" ⟨"del", ["main"]⟩
        (baseEx ⟨[], []⟩)).1 = { success := true, message := none }
      ∧ (execCmdWith (executeTaskFuel sysTest 0) sysTest "t" ⟨"del", ["main"]⟩
          ((execCmdWith (executeTaskFuel sysTest 0) sysTest "t"
            ⟨"del", ["main"]⟩ (baseEx ⟨[], []⟩)).2)).1 =
        { success := true, message := none })
    ∧ execCmdWith (executeTaskFuel ⟨fun _ => ⟨none, 0, "", ""⟩,
          fun _ => some "EACCES", envNone, fun a b => a ++ "/" ++ b⟩ 0)
        ⟨fun _ => ⟨none, 0, "", ""⟩, fun _ => some "EACCES", envNone,
          fun a b => a ++ "/" ++ b⟩
        "t" ⟨"del", ["main"]⟩ (mkExecutor ⟨[], []⟩ "" (fun _ => true)) =
      ({ success := false,
         message := some "Failed to delete main: EACCES" },
       mkExecutor ⟨[], []⟩ "" (fun _ => true)) :=
  ⟨(ssal_C8_del_idempotent (executeTaskFuel sysTest 0) sysTest "t" "main"
      (baseEx ⟨[], []⟩)).1 (by rfl),
   (ssal_C8_del_idempotent
      (executeTaskFuel ⟨fun _ => ⟨none, 0, "", ""⟩, fun _ => some "EACCES",
        envNone, fun a b => a ++ "/" ++ b⟩ 0)
      ⟨fun _ => ⟨none, 0, "", ""⟩, fun _ => some "EACCES", envNone,
        fun a b => a ++ "/" ++ b⟩
      "t" "main" (mkExecutor ⟨[], []⟩ "" (fun _ => true))).2 "EACCES"
     (by rfl) (by rfl)⟩

/-! ## Claim C4: in-order execution with short circuit on first failure -/

theorem collect_append (exeTask : String → Executor → ExecutionResult × Executor)
    (sys : Sys) (tn : String) :
    ∀ (pre : List Command) (ex ex1 : Executor) (rest : List Command),
      collectOk exeTask sys tn pre ex = some ex1 →
      runCmdsWith exeTask sys tn (pre ++ rest) ex =
        runCmdsWith exeTask sys tn rest ex1 := by
  intro pre
  induction pre with
  | nil =>
    intro ex ex1 rest h
    simp only [collectOk, Option.some.injEq] at h
    rw [h]
    rfl
  | cons c pre ih =>
    intro ex ex1 rest h
    rcases hc : execCmdWith exeTask sys tn c ex with ⟨r, ex2⟩
    simp only [collectOk, hc] at h
    by_cases hs : r.success
    · simp only [hs, if_true] at h
      simp only [List.cons_append, runCmdsWith, hc, hs, if_true]
      exact ih ex2 ex1 rest h
    · simp [hs] at h

theorem collect_runCmds (exeTask : String → Executor → ExecutionResult × Executor)
    (sys : Sys) (tn : String) (cmds : List Command) (ex ex2 : Executor)
    (h : collectOk exeTask sys tn cmds ex = some ex2) :
    runCmdsWith exeTask sys tn cmds ex =
      ({ success := true,
         message := some ("Task \"" ++ tn ++ "\" completed successfully") },
       ex2) := by
  have happ := collect_append exeTask sys tn cmds ex ex2 [] h
  rw [List.append_nil] at happ
  rw [happ]
  rfl

/-- Claim C4: executing a found task runs its commands in declared
order; if the commands split as pre, c, post where every command of pre
succeeds and c fails, the task returns exactly the result and state of
c (post is never executed — the final state carries no effect of it);
if every command succeeds, the task returns success with message
`Task "<name>" completed successfully` and the state after the whole
list. -/
theorem ssal_C4_short_circuit (sys : Sys) (fuel : Nat) (name : String)
    (ex : Executor) (task : Task)
    (hfind : ex.script.tasks.find? (fun t => t.name == name) = some task) :
    (∀ (pre : List Command) (c : Command) (post : List Command)
      (ex1 : Executor),
      task.commands = pre ++ c :: post →
      runAllOk sys fuel name pre ex = some ex1 →
      ((execCmdWith (executeTaskFuel sys fuel) sys name c ex1).1).success = false →
      executeTaskFuel sys (fuel + 1) name ex =
        execCmdWith (executeTaskFuel sys fuel) sys name c ex1)
    ∧ (∀ ex2 : Executor,
      runAllOk sys fuel name task.commands ex = some ex2 →
      executeTaskFuel sys (fuel + 1) name ex =
        ({ success := true,
           message := some ("Task \"" ++ name ++ "\" completed successfully") },
         ex2)) := by
  have hentry : executeTaskFuel sys (fuel + 1) name ex =
      runCmdsWith (executeTaskFuel sys fuel) sys name task.commands ex := by
    simp only [executeTaskFuel, hfind]
  constructor
  · intro pre c post ex1 hcmds hpre hfail
    rw [hentry, hcmds,
      collect_append (executeTaskFuel sys fuel) sys name pre ex ex1
        (c :: post) hpre]
    rcases hc : execCmdWith (executeTaskFuel sys fuel) sys name c ex1
      with ⟨r, ex3⟩
    rw [hc] at hfail
    simp only [runCmdsWith, hc]
    simp at hfail
    simp [hfail]
  · intro ex2 hall
    rw [hentry]
    exact collect_runCmds (executeTaskFuel sys fuel) sys name
      task.commands ex ex2 hall

/-- Witness for C4: the task t has commands ech a, bogus, ech b; the
first succeeds, the unknown command fails, the third never runs — the
final log holds a and not b, and the unknown-command result is returned
unchanged. -/
theorem ssal_C4_witness :
    executeTaskFuel sysTest 3 "t"
        (baseEx ⟨[], [⟨"t", [⟨"ech", ["a"]⟩, ⟨"bogus", ["x"]⟩,
          ⟨"ech", ["b"]⟩]⟩]⟩) =
      ({ success := false, message := some "Unknown command: bogus" },
       { baseEx ⟨[], [⟨"t", [⟨"ech", ["a"]⟩, ⟨"bogus", ["x"]⟩,
          ⟨"ech", ["b"]⟩]⟩]⟩ with log := ["a"] }) :=
  (ssal_C4_short_circuit sysTest 2 "t"
      (baseEx ⟨[], [⟨"t", [⟨"ech", ["a"]⟩, ⟨"bogus", ["x"]⟩,
        ⟨"ech", ["b"]⟩]⟩]⟩)
      ⟨"t", [⟨"ech", ["a"]⟩, ⟨"bogus", ["x"]⟩, ⟨"ech", ["b"]⟩]⟩
      (by rfl)).1
    [⟨"ech", ["a"]⟩] ⟨"bogus", ["x"]⟩ [⟨"ech", ["b"]⟩]
    { baseEx ⟨[], [⟨"t", [⟨"ech", ["a"]⟩, ⟨"bogus", ["x"]⟩,
        ⟨"ech", ["b"]⟩]⟩]⟩ with log := ["a"] }
    (by rfl) (by rfl) (by rfl)

/-! ## Claim C7: the script is never modified; runtime variables only
by `var` commands -/

/-- No task of the script contains a `var` command. -/
def noVarCommands (s : SSALScript) : Prop :=
  ∀ t ∈ s.tasks, ∀ c ∈ t.commands, c.type ≠ "var"

theorem execCmd_frame (exeTask : String → Executor → ExecutionResult × Executor)
    (sys : Sys) (tn : String)
    (hT : ∀ n ex, ((exeTask n ex).2).script = ex.script) :
    ∀ (c : Command) (ex : Executor),
      ((execCmdWith exeTask sys tn c ex).2).script = ex.script := by
  intro c ex
  by_cases h1 : c.type = "run"
  · unfold execCmdWith
    rw [if_pos h1]
    dsimp only
    split <;> rfl
  by_cases h2 : c.type = "del"
  · unfold execCmdWith
    rw [if_neg h1, if_pos h2]
    dsimp only
    split
    · split <;> rfl
    · rfl
  by_cases h3 : c.type = "ech"
  · unfold execCmdWith
    rw [if_neg h1, if_neg h2, if_pos h3]
  by_cases h4 : c.type = "tsk"
  · unfold execCmdWith
    rw [if_neg h1, if_neg h2, if_neg h3, if_pos h4]
    dsimp only
    split
    · exact hT _ _
    · exact hT _ _
  by_cases h5 : c.type = "var"
  · unfold execCmdWith
    rw [if_neg h1, if_neg h2, if_neg h3, if_neg h4, if_pos h5]
  · unfold execCmdWith
    rw [if_neg h1, if_neg h2, if_neg h3, if_neg h4, if_neg h5]

theorem runCmds_frame (exeTask : String → Executor → ExecutionResult × Executor)
    (sys : Sys) (tn : String)
    (hT : ∀ n ex, ((exeTask n ex).2).script = ex.script) :
    ∀ (cmds : List Command) (ex : Executor),
      ((runCmdsWith exeTask sys tn cmds ex).2).script = ex.script := by
  intro cmds
  induction cmds with
  | nil => intro ex; rfl
  | cons c rest ih =>
    intro ex
    rcases hc : execCmdWith exeTask sys tn c ex with ⟨r, ex1⟩
    have h1 : ex1.script = ex.script := by
      have hcm := execCmd_frame exeTask sys tn hT c ex
      rw [hc] at hcm
      exact hcm
    by_cases hs : r.success <;> simp [runCmdsWith, hc, hs, ih ex1, h1]

theorem executeTask_frame (sys : Sys) :
    ∀ (fuel : Nat) (tn : String) (ex : Executor),
      ((executeTaskFuel sys fuel tn ex).2).script = ex.script := by
  intro fuel
  induction fuel with
  | zero => intro tn ex; rfl
  | succ n ih =>
    intro tn ex
    cases hf : ex.script.tasks.find? (fun t => t.name == tn) with
    | none => simp [executeTaskFuel, hf]
    | some task =>
      simp only [executeTaskFuel, hf]
      exact runCmds_frame (executeTaskFuel sys n) sys tn
        (fun n2 ex2 => ih n2 ex2) task.commands ex

theorem execCmd_globals (exeTask : String → Executor → ExecutionResult × Executor)
    (sys : Sys) (tn : String)
    (hT : ∀ n ex, noVarCommands ex.script →
      ((exeTask n ex).2).globalVariables = ex.globalVariables) :
    ∀ (c : Command) (ex : Executor), noVarCommands ex.script →
      c.type ≠ "var" →
      ((execCmdWith exeTask sys tn c ex).2).globalVariables =
        ex.globalVariables := by
  intro c ex hnv hcv
  by_cases h1 : c.type = "run"
  · unfold execCmdWith
    rw [if_pos h1]
    dsimp only
    split <;> rfl
  by_cases h2 : c.type = "del"
  · unfold execCmdWith
    rw [if_neg h1, if_pos h2]
    dsimp only
    split
    · split <;> rfl
    · rfl
  by_cases h3 : c.type = "ech"
  · unfold execCmdWith
    rw [if_neg h1, if_neg h2, if_pos h3]
  by_cases h4 : c.type = "tsk"
  · unfold execCmdWith
    rw [if_neg h1, if_neg h2, if_neg h3, if_pos h4]
    dsimp only
    split
    · exact hT _ _ hnv
    · exact hT _ _ hnv
  by_cases h5 : c.type = "var"
  · exact absurd h5 hcv
  · unfold execCmdWith
    rw [if_neg h1, if_neg h2, if_neg h3, if_neg h4, if_neg h5]

theorem runCmds_globals (exeTask : String → Executor → ExecutionResult × Executor)
    (sys : Sys) (tn : String)
    (hTs : ∀ n ex, ((exeTask n ex).2).script = ex.script)
    (hT : ∀ n ex, noVarCommands ex.script →
      ((exeTask n ex).2).globalVariables = ex.globalVariables) :
    ∀ (cmds : List Command) (ex : Executor), noVarCommands ex.script →
      (∀ c ∈ cmds, c.type ≠ "var") →
      ((runCmdsWith exeTask sys tn cmds ex).2).globalVariables =
        ex.globalVariables := by
  intro cmds
  induction cmds with
  | nil => intro ex _ _; rfl
  | cons c rest ih =>
    intro ex hnv hall
    rcases hc : execCmdWith exeTask sys tn c ex with ⟨r, ex1⟩
    have hg1 : ex1.globalVariables = ex.globalVariables := by
      have hcm := execCmd_globals exeTask sys tn hT c ex hnv (hall c (by simp))
      rw [hc] at hcm
      exact hcm
    have hs1 : ex1.script = ex.script := by
      have hcm := execCmd_frame exeTask sys tn hTs c ex
      rw [hc] at hcm
      exact hcm
    have hnv1 : noVarCommands ex1.script := by
      rw [hs1]
      exact hnv
    have htail : ∀ c2 ∈ rest, c2.type ≠ "var" :=
      fun c2 hc2 => hall c2 (by simp [hc2])
    by_cases hs : r.success <;>
      simp [runCmdsWith, hc, hs, ih ex1 hnv1 htail, hg1]

theorem executeTask_globals (sys : Sys) :
    ∀ (fuel : Nat) (tn : String) (ex : Executor), noVarCommands ex.script →
      ((executeTaskFuel sys fuel tn ex).2).globalVariables =
        ex.globalVariables := by
  intro fuel
  induction fuel with
  | zero => intro tn ex _; rfl
  | succ n ih =>
    intro tn ex hnv
    cases hf : ex.script.tasks.find? (fun t => t.name == tn) with
    | none => simp [executeTaskFuel, hf]
    | some task =>
      have hmem : task ∈ ex.script.tasks := List.mem_of_find?_eq_some hf
      simp only [executeTaskFuel, hf]
      exact runCmds_globals (executeTaskFuel sys n) sys tn
        (fun n2 ex2 => executeTask_frame sys n n2 ex2)
        (fun n2 ex2 h2 => ih n2 ex2 h2)
        task.commands ex hnv (hnv task hmem)

/-- Claim C7: a freshly constructed executor has empty runtime maps;
executing any task never modifies the stored script (its variables and
tasks lists included) or the working directory, and when the script
contains no `var` command the runtime global-variable map is unchanged
by execution — only `var` commands mutate it. -/
theorem ssal_C7_frame :
    (∀ (script : SSALScript) (wd : String) (fs0 : String → Bool),
      (mkExecutor script wd fs0).globalVariables = []
      ∧ (mkExecutor script wd fs0).taskArgs = []
      ∧ (mkExecutor script wd fs0).namedArgs = []
      ∧ (mkExecutor script wd fs0).script = script)
    ∧ (∀ (sys : Sys) (fuel : Nat) (tn : String) (ex : Executor),
      ((executeTaskFuel sys fuel tn ex).2).script = ex.script
      ∧ (noVarCommands ex.script →
        ((executeTaskFuel sys fuel tn ex).2).globalVariables =
          ex.globalVariables)) := by
  constructor
  · intro script wd fs0
    exact ⟨rfl, rfl, rfl, rfl⟩
  · intro sys fuel tn ex
    exact ⟨executeTask_frame sys fuel tn ex,
      fun h => executeTask_globals sys fuel tn ex h⟩

/-- Witness for C7 on a script whose only task echoes: the runtime map
is untouched by execution. -/
theorem ssal_C7_witness :
    ((executeTaskFuel sysTest 2 "t"
        (baseEx ⟨[], [⟨"t", [⟨"ech", ["hi"]⟩]⟩]⟩)).2).globalVariables = [] :=
  (ssal_C7_frame.2 sysTest 2 "t"
    (baseEx ⟨[], [⟨"t", [⟨"ech", ["hi"]⟩]⟩]⟩)).2 (by unfold noVarCommands; decide)

/-! ## Claim C6: contextual meaning of a `var` line -/

/-- Claim C6: a line whose trimmed text starts with `var ` and matches
`var\s+(\w+)\s*=\s*"([^"]*)"$` is handled by lexical position — with a
task open it is appended to that task as a `var`-typed command with
arguments NAME, VALUE; with no task open it is appended to the script's
global variable declarations. -/
theorem ssal_C6_var_line (st : PState) (rawLine : List Char) (n v : String)
    (h1 : ("var ".data).isPrefixOf (trimList rawLine) = true)
    (h2 : findVarMatch (trimList rawLine) = some (n, v)) :
    processLine st rawLine =
      if st.taskOpen then
        { st with tasks := pushCmd st.tasks ⟨"var", [n, v]⟩ }
      else
        { st with «variables» := st.«variables» ++ [⟨n, v⟩] } := by
  obtain ⟨rest, hl⟩ : ∃ rest, trimList rawLine = 'v' :: rest := by
    cases hl : trimList rawLine with
    | nil =>
      rw [hl] at h1
      simp [List.isPrefixOf] at h1
    | cons c cs =>
      rw [hl] at h1
      have hv : 'v' = c := by
        have hd : "var ".data = 'v' :: "ar ".data := rfl
        rw [hd] at h1
        simp only [List.isPrefixOf, Bool.and_eq_true, beq_iff_eq] at h1
        exact h1.1
      exact ⟨cs, by rw [hv]⟩
  rw [hl] at h1 h2
  have hhash : (("#".data).isPrefixOf ('v' :: rest)) = false := by
    have hd : "#".data = ['#'] := rfl
    rw [hd]
    simp [List.isPrefixOf]
  simp only [processLine]
  rw [hl]
  simp [h1, h2, hhash]

/-- Witness for C6: the same var line lands as a task command when a
task is open and as a global declaration when none is. -/
theorem ssal_C6_witness :
    processLine ⟨[], [⟨"t", []⟩], true⟩ ("  var A = \"b\"".data) =
        ⟨[], [⟨"t", [⟨"var", ["A", "b"]⟩]⟩], true⟩
    ∧ processLine ⟨[], [], false⟩ ("var A = \"b\"".data) =
        ⟨[⟨"A", "b"⟩], [], false⟩ :=
  ⟨ssal_C6_var_line ⟨[], [⟨"t", []⟩], true⟩ ("  var A = \"b\"".data)
      "A" "b" (by rfl) (by rfl),
   ssal_C6_var_line ⟨[], [], false⟩ ("var A = \"b\"".data)
      "A" "b" (by rfl) (by rfl)⟩

end SSAL
